import Mathlib

/-!
Verification development for the QUIC torrent client and server repository.

The definitions below are shallow embeddings of the Rust sources:

* `src/lib.rs` — the bencode codec (`bencode_string`, `bencode_int`,
  `bencode_dict`, `BencodeValue::encode`, `decode_bencode`);
* `src/quic_tracker.rs` — the announce handler, the request dispatch in
  `handle_quic_connection`, the filename sanitization of
  `handle_file_request`, and `handle_ai_request`;
* `src/work_distribution.rs` — `NodeInfo`, `select_node`, `delegate_ai_work`;
* `src/quic_client.rs` — the connection retry logic of `send_message`.

Machine integers are modeled as `Nat` (they are only compared, counted and
incremented here, never overflowed), `f64` weights as `ℚ` (the weights in
every statement are exactly representable and only added, multiplied and
compared), byte buffers as `List Nat`, and `BTreeMap<Vec<u8>, _>` as a
key-sorted association list.  Stateful handlers become explicit state
passing; the nondeterministic inputs of the code (the random draw of
`select_node`, the outcome of each connection attempt, the result of the
foreign JSON parser of serde) become explicit parameters, universally
quantified in the theorems.
-/

/-! ## Bencode codec (src/lib.rs) -/

/-- Structural worker for `natToDigits`: the first argument is a
recursion budget (any budget above the argument itself is enough, as the
lemmas below prove). -/
def natToDigitsGo (fuel n : Nat) : List Nat :=
  match fuel with
  | 0 => []
  | Nat.succ fuel => if n < 10 then [48 + n] else natToDigitsGo fuel (n / 10) ++ [48 + n % 10]

/-- Decimal digits of a natural number, as ASCII bytes, most significant
digit first.  This is the byte sequence produced by `format!("{}", n)` in
`bencode_string` and `bencode_int`. -/
def natToDigits (n : Nat) : List Nat :=
  natToDigitsGo (n + 1) n

/-- Decimal byte sequence of a signed integer, as produced by
`format!("{}", i)` for an `i64`. -/
def intToDigits (i : Int) : List Nat :=
  if i < 0 then 45 :: natToDigits i.natAbs else natToDigits i.toNat

/-- A bencode value as in `enum BencodeValue` of `src/lib.rs`: a byte
string, an integer, or a dictionary.  The Rust dictionary is a
`BTreeMap<Vec<u8>, BencodeValue>`; it is modeled as an association list
that is strictly sorted by key (the predicate `bencodeRep` below). -/
inductive BencodeValue where
  | str : List Nat → BencodeValue
  | int : Int → BencodeValue
  | dict : List (List Nat × BencodeValue) → BencodeValue

/-- Strict lexicographic order on byte strings, matching the `Ord`
instance of `Vec<u8>` that orders the keys of a `BTreeMap`. -/
def bytesLt : List Nat → List Nat → Bool
  | [], [] => false
  | [], _ :: _ => true
  | _ :: _, [] => false
  | a :: as, b :: bs => if a < b then true else if b < a then false else bytesLt as bs

/-- Encoding of a byte string: `bencode_string` of `src/lib.rs`. -/
def bencode_string (s : List Nat) : List Nat :=
  natToDigits s.length ++ (58 :: s)

/-- Encoding of an integer: `bencode_int` of `src/lib.rs`. -/
def bencode_int (i : Int) : List Nat :=
  105 :: (intToDigits i ++ [101])

mutual

/-- Encoding of a bencode value: `BencodeValue::encode` of `src/lib.rs`. -/
def bencodeEncode : BencodeValue → List Nat
  | .str s => bencode_string s
  | .int i => bencode_int i
  | .dict d => 100 :: (bencodeEncodePairs d ++ [101])

/-- Body of `bencode_dict`: each key encoded with `bencode_string`
followed by the encoding of its value, in the stored (sorted) order. -/
def bencodeEncodePairs : List (List Nat × BencodeValue) → List Nat
  | [] => []
  | (k, v) :: rest => bencode_string k ++ (bencodeEncode v ++ bencodeEncodePairs rest)

end

/-- Whether a byte is an ASCII decimal digit (the `b'0'..=b'9'` guard of
`decode_bencode`). -/
def isDigitByte (b : Nat) : Bool := 48 ≤ b && b ≤ 57

/-- Value of a nonempty, all-digit byte run, else `none`. -/
def parseDigitRun (ds : List Nat) : Option Nat :=
  if ds ≠ [] && ds.all isDigitByte then
    some (ds.foldl (fun acc d => acc * 10 + (d - 48)) 0)
  else none

/-- Parse of an unsigned decimal from bytes, mirroring `str::from_utf8`
followed by `parse::<usize>()`: an optional leading `+` then a nonempty
digit run.  The numeric overflow of `usize` is not modeled (lengths are
`Nat`). -/
def parseNatBytes (l : List Nat) : Option Nat :=
  if l.headD 0 = 43 then parseDigitRun l.tail else parseDigitRun l

/-- Parse of a signed decimal from bytes, mirroring `str::from_utf8`
followed by `parse::<i64>()`: an optional single sign then a nonempty
digit run. -/
def parseIntBytes (l : List Nat) : Option Int :=
  if l.headD 0 = 45 then (parseDigitRun l.tail).map (fun n => -(Int.ofNat n))
  else if l.headD 0 = 43 then (parseDigitRun l.tail).map (fun n => Int.ofNat n)
  else (parseDigitRun l).map (fun n => Int.ofNat n)

/-- Index of the first occurrence of a byte, mirroring
`iter().position(|&b| b == t)` as used by `decode_bencode` to locate the
integer terminator and the string length separator. -/
def positionOf (t : Nat) : List Nat → Option Nat
  | [] => none
  | b :: rest => if b = t then some 0 else (positionOf t rest).map (· + 1)

/-- Insertion into the sorted association list that models the
`BTreeMap`: keeps keys strictly sorted by `bytesLt` and overwrites an
equal key, as `BTreeMap::insert` does. -/
def btreeInsert (k : List Nat) (v : BencodeValue) :
    List (List Nat × BencodeValue) → List (List Nat × BencodeValue)
  | [] => [(k, v)]
  | (k', v') :: rest =>
    if bytesLt k k' then (k, v) :: (k', v') :: rest
    else if k = k' then (k, v) :: rest
    else (k', v') :: btreeInsert k v rest

mutual

/-- Fueled embedding of `decode_bencode` of `src/lib.rs`.  The fuel only
bounds the recursion depth; `decode_bencode` below instantiates it with a
bound that the round-trip theorems prove sufficient.  Failure (`Err` in
Rust) is `none`.  On success the result carries the decoded value and the
number of bytes consumed, exactly as the Rust function returns
`(BencodeValue, usize)`. -/
def decodeBen : Nat → List Nat → Option (BencodeValue × Nat)
  | 0, _ => none
  | Nat.succ fuel, data =>
    match data with
    | [] => none
    | b :: _ =>
      if b = 105 then
        match positionOf 101 data with
        | none => none
        | some e =>
          match parseIntBytes ((data.drop 1).take (e - 1)) with
          | none => none
          | some num => some (.int num, e + 1)
      else if b = 100 then
        match decodeBenDict fuel (data.drop 1) [] with
        | none => none
        | some (pairs, consumed) =>
          let pos := 1 + consumed
          if pos < data.length && data.getD pos 0 = 101 then
            some (.dict pairs, pos + 1)
          else none
      else if isDigitByte b then
        match positionOf 58 data with
        | none => none
        | some colon =>
          match parseNatBytes (data.take colon) with
          | none => none
          | some len =>
            let start := colon + 1
            if start + len > data.length then none
            else some (.str ((data.drop start).take len), start + len)
      else none

/-- The dictionary loop of `decode_bencode`, with positions relative to
the byte after the leading `d`: decode a key (which must be a string),
then a value, insert the pair, and continue until the terminator byte or
the end of the data.  Returns the accumulated map together with the
number of bytes consumed before the loop stopped. -/
def decodeBenDict : Nat → List Nat → List (List Nat × BencodeValue) →
    Option (List (List Nat × BencodeValue) × Nat)
  | 0, _, _ => none
  | Nat.succ fuel, data, acc =>
    match data with
    | [] => some (acc, 0)
    | b :: _ =>
      if b = 101 then some (acc, 0)
      else
        match decodeBen fuel data with
        | some (.str k, klen) =>
          match decodeBen fuel (data.drop klen) with
          | some (v, vlen) =>
            match decodeBenDict fuel (data.drop (klen + vlen)) (btreeInsert k v acc) with
            | some (pairs, c) => some (pairs, klen + vlen + c)
            | none => none
          | none => none
        | some _ => none
        | none => none

end

/-- Top-level decode: `decode_bencode` with a recursion-depth budget that
covers every input (two fuel units per input byte, plus slack; the
round-trip theorem below shows this budget is never the binding
constraint on encoded values). -/
def decode_bencode (data : List Nat) : Option (BencodeValue × Nat) :=
  decodeBen (2 * data.length + 2) data

mutual

/-- Representability of a value: every dictionary in it is strictly
key-sorted, which is exactly the data that a Rust `BTreeMap` can hold. -/
def bencodeRep : BencodeValue → Bool
  | .str _ => true
  | .int _ => true
  | .dict d => bencodeRepPairs d

/-- Representability of a dictionary body: strictly sorted keys and
representable values. -/
def bencodeRepPairs : List (List Nat × BencodeValue) → Bool
  | [] => true
  | (_, v) :: [] => bencodeRep v
  | (k, v) :: (k', v') :: rest =>
    bytesLt k k' && (bencodeRep v && bencodeRepPairs ((k', v') :: rest))

end

/-! ## Fuel accounting for the round trip -/

mutual

/-- Recursion depth that suffices to decode the encoding of a value. -/
def fuelNeed : BencodeValue → Nat
  | .str _ => 1
  | .int _ => 1
  | .dict ps => 1 + fuelNeedPairs ps

/-- Recursion depth that suffices for the dictionary loop over the
encoding of the given pairs. -/
def fuelNeedPairs : List (List Nat × BencodeValue) → Nat
  | [] => 1
  | (_, v) :: rest => 1 + max 1 (max (fuelNeed v) (fuelNeedPairs rest))

end

/-! ## The BTreeMap built from pairs: order independence, sorted keys -/

/-- The `BTreeMap` obtained by inserting the pairs one by one, in the
given order (the only way the Rust code ever builds a dictionary). -/
def btreeOfList (ps : List (List Nat × BencodeValue)) :
    List (List Nat × BencodeValue) :=
  ps.foldl (fun acc kv => btreeInsert kv.1 kv.2 acc) []

/-! ## Swarm registry (src/quic_tracker.rs) -/

/-- The `Peer` struct of `src/quic_tracker.rs`. -/
structure Peer where
  peer_id : String
  ip : String
  port : Nat
  uploaded : Nat
  downloaded : Nat
  left : Nat

deriving DecidableEq, Repr

/-- The `TrackerAnnounceRequest` struct of `src/messages.rs`: `port` is
required, the other tracker fields are optional (`Option` in serde). -/
structure TrackerAnnounceRequest where
  info_hash : String
  peer_id : String
  port : Nat
  uploaded : Option Nat
  downloaded : Option Nat
  left : Option Nat
  event : Option String
  ip : Option String

deriving DecidableEq, Repr

/-- The `PeerInfo` struct of `src/messages.rs`. -/
structure PeerInfo where
  ip : String
  port : Nat

deriving DecidableEq, Repr

/-- The `TrackerAnnounceResponse` struct of `src/messages.rs`. -/
structure TrackerAnnounceResponse where
  interval : Nat
  peers : List PeerInfo
  complete : Nat
  incomplete : Nat

deriving DecidableEq, Repr

/-- The tracker state `peers: HashMap<String, Vec<Peer>>`, modeled as a
total function with the `or_insert_with(Vec::new)` default built in. -/
def TrackerState := String → List Peer

/-- The peer record built by `handle_announce_request` (lines 171-185):
absent optional fields default to zero and the ip to `127.0.0.1`. -/
def mkPeer (req : TrackerAnnounceRequest) : Peer :=
  { peer_id := req.peer_id
    ip := req.ip.getD "127.0.0.1"
    port := req.port
    uploaded := req.uploaded.getD 0
    downloaded := req.downloaded.getD 0
    left := req.left.getD 0 }

/-- The announce handler `handle_announce_request` of
`src/quic_tracker.rs`: remove any entry with the same peer id, insert
the new record unless the event is `stopped`, then build the response
from the updated list — `peers` excludes the requester, while `complete`
and `incomplete` count over the whole updated list. -/
def handle_announce_request (req : TrackerAnnounceRequest) (st : TrackerState) :
    TrackerState × TrackerAnnounceResponse :=
  let peer := mkPeer req
  let retained := (st req.info_hash).filter (fun p => p.peer_id ≠ req.peer_id)
  let newPeers := if req.event ≠ some "stopped" then retained ++ [peer] else retained
  let st' : TrackerState := fun h => if h = req.info_hash then newPeers else st h
  let peers_list := st' req.info_hash
  let peer_infos := (peers_list.filter (fun p => p.peer_id ≠ req.peer_id)).map
    (fun p => PeerInfo.mk p.ip p.port)
  (st',
    { interval := 60
      peers := peer_infos
      complete := (peers_list.filter (fun p => p.left = 0)).length
      incomplete := (peers_list.filter (fun p => 0 < p.left)).length })

/-! ## Work distribution (src/work_distribution.rs) -/

/-- The `NodeCapability` enum of `src/work_distribution.rs`. -/
inductive NodeCapability where
  | aiProcessing : NodeCapability
  | fileServing : NodeCapability
  | tracker : NodeCapability
  | custom : String → NodeCapability

deriving DecidableEq, Repr

/-- The `NodeInfo` struct of `src/work_distribution.rs`.  The `f64`
weight is modeled as a rational; `last_seen : SystemTime` as a `Nat`
timestamp. -/
structure NodeInfo where
  ip : String
  port : Nat
  capabilities : List NodeCapability
  weight : Rat
  last_seen : Nat
  active_requests : Nat
  max_concurrent : Nat

deriving DecidableEq, Repr

/-- Embedding of `NodeInfo::can_handle`: the capability is listed and the node is
below its concurrency cap. -/
def can_handle (n : NodeInfo) (c : NodeCapability) : Bool :=
  c ∈ n.capabilities && n.active_requests < n.max_concurrent

/-- Embedding of `NodeInfo::effective_weight`: the declared weight scaled by the load
factor (1 when `max_concurrent` is zero). -/
def effective_weight (n : NodeInfo) : Rat :=
  n.weight * (if 0 < n.max_concurrent
    then 1 - (n.active_requests : Rat) / (n.max_concurrent : Rat)
    else 1)

/-- The two shared tables of `WorkDistributionManager`: `nodes`
(node id to record) and `capability_tables` (capability to node-id
list), each `HashMap` modeled as a partial lookup function. -/
structure WorkDist where
  nodes : String → Option NodeInfo
  capability_tables : NodeCapability → Option (List String)

/-- The candidate list built by `select_node` (lines 112-120): the ids
registered for the capability whose record still exists and can handle
it, each paired with its effective weight. -/
def candidatesOf (w : WorkDist) (c : NodeCapability) (ids : List String) :
    List (String × Rat) :=
  ids.filterMap (fun id =>
    match w.nodes id with
    | some n => if can_handle n c then some (id, effective_weight n) else none
    | none => none)

/-- The selection loop of `select_node` (lines 135-142): subtract each
candidate weight from the running draw; at the first non-positive
remainder return that node if its record is still present, otherwise
keep scanning with the already decremented remainder. -/
def selLoop (nodes : String → Option NodeInfo) :
    List (String × Rat) → Rat → Option (String × NodeInfo)
  | [], _ => none
  | (id, wt) :: rest, r =>
    if r - wt ≤ 0 then
      match nodes id with
      | some n => some (id, n)
      | none => selLoop nodes rest (r - wt)
    else selLoop nodes rest (r - wt)

/-- Embedding of `select_node` of `src/work_distribution.rs`, with the random draw
`r` (drawn by `gen_range(0.0..total_weight)` in the code) passed in as
an explicit parameter: empty candidate list or non-positive total weight
give `None`; otherwise the weighted scan runs and, failing that, the
first candidate is the fallback. -/
def select_node (w : WorkDist) (c : NodeCapability) (r : Rat) :
    Option (String × NodeInfo) :=
  match w.capability_tables c with
  | none => none
  | some ids =>
    let candidates := candidatesOf w c ids
    if candidates.isEmpty then none
    else
      let total_weight := (candidates.map (fun p => p.2)).sum
      if total_weight ≤ 0 then none
      else
        match selLoop w.nodes candidates r with
        | some res => some res
        | none =>
          match candidates.head? with
          | some (id, _) => (w.nodes id).map (fun n => (id, n))
          | none => none

/-! ## Wire message structs (src/messages.rs) -/

/-- The `MessageContext` struct of `src/messages.rs`. -/
structure MessageContext where
  role : String
  content : String

deriving DecidableEq, Repr

/-- The `AiParameters` struct of `src/messages.rs` (`f64` fields as
rationals). -/
structure AiParameters where
  temperature : Option Rat
  max_tokens : Option Nat
  top_p : Option Rat

deriving DecidableEq, Repr

/-- The `AiRequest` struct of `src/messages.rs`. -/
structure AiRequest where
  query : String
  context : Option (List MessageContext)
  parameters : Option AiParameters

deriving DecidableEq, Repr

/-- The `ResponseMetadata` struct of `src/messages.rs`. -/
structure ResponseMetadata where
  input_tokens : Option Nat
  output_tokens : Option Nat
  total_tokens : Option Nat
  processing_time_ms : Option Nat

deriving DecidableEq, Repr

/-- The `AiResponse` struct of `src/messages.rs`. -/
structure AiResponse where
  answer : String
  metadata : Option ResponseMetadata

deriving DecidableEq, Repr

/-- The `FileRequest` struct of `src/messages.rs`. -/
structure FileRequest where
  file : String

deriving DecidableEq, Repr

/-- The `ErrorResponse` struct of `src/messages.rs`. -/
structure ErrorResponse where
  error : String
  code : Option String

deriving DecidableEq, Repr

/-! ## Delegation (src/work_distribution.rs, delegate_ai_work) -/

/-- Pointwise update of the node table at one id, as the
`if let Some(node) = nodes.get_mut(&node_id)` blocks do: the record is
transformed when present and untouched ids are unchanged. -/
def updNode (nodes : String → Option NodeInfo) (id : String)
    (f : NodeInfo → NodeInfo) : String → Option NodeInfo :=
  fun id' => if id' = id then (nodes id').map f else nodes id'

/-- Embedding of `delegate_ai_work` of `src/work_distribution.rs` as a state
transformer.  The nondeterministic outcomes of the call are parameters:
`r` the weighted draw, `clientOk` whether `QuicClient::new()` succeeds,
`transport` the result of `send_message` on the selected node, `now` the
refreshed timestamp.  Select a node (fail if none), increment its
`active_requests`, and decrement it again on every exit path — client
creation failure included — with the decrement a saturating
subtraction. -/
def delegate_ai_work (w : WorkDist) (c : NodeCapability) (r : Rat)
    (clientOk : Bool) (transport : Except String AiResponse) (now : Nat) :
    WorkDist × Except String AiResponse :=
  match select_node w c r with
  | none => (w, .error "No available node for AI processing")
  | some (node_id, _info) =>
    let nodes1 := updNode w.nodes node_id
      (fun n => { n with active_requests := n.active_requests + 1 })
    if clientOk = false then
      let nodes2 := updNode nodes1 node_id
        (fun n => { n with active_requests := n.active_requests - 1 })
      ({ w with nodes := nodes2 }, .error "Failed to create QUIC client")
    else
      let nodes2 := updNode nodes1 node_id
        (fun n => { n with active_requests := n.active_requests - 1, last_seen := now })
      ({ w with nodes := nodes2 }, transport)

/-- A work-distribution state with exactly one registered node for
AiProcessing whose declared weight is zero. -/
def zeroWeightWD : WorkDist :=
  { nodes := fun id =>
      if id = "A" then some ⟨"10.0.0.1", 9000, [.aiProcessing], 0, 0, 0, 100⟩ else none
    capability_tables := fun c =>
      if c = .aiProcessing then some ["A"] else none }

/-- A work-distribution state with exactly one registered node for
AiProcessing, declared weight 1, no load. -/
def unitWeightWD : WorkDist :=
  { nodes := fun id =>
      if id = "A" then some ⟨"10.0.0.1", 9000, [.aiProcessing], 1, 0, 0, 100⟩ else none
    capability_tables := fun c =>
      if c = .aiProcessing then some ["A"] else none }

/-! ## Client connection retry (src/quic_client.rs, send_message) -/

/-- Outcome of one connection attempt in `send_message`: the awaited
connection resolves Ok within the 20s timeout (`success`), resolves Err
within the timeout (`asyncFail`), the timeout elapses (`timeout`), or
the synchronous `endpoint.connect(...)?` call itself returns Err
(`syncFail`). -/
inductive ConnAttempt where
  | success : ConnAttempt
  | asyncFail : ConnAttempt
  | timeout : ConnAttempt
  | syncFail : ConnAttempt

deriving DecidableEq, Repr

/-- Result of the connection phase, carrying how many attempts ran. -/
inductive ConnResult where
  | connected : Nat → ConnResult
  | failed : Nat → ConnResult

deriving DecidableEq, Repr

/-- The connection phase of `send_message` (lines 74-118): a first
attempt and, on an in-timeout error or a timeout, exactly one fresh
retry; a failure of the synchronous `connect` call propagates
immediately with no retry; after a failed retry the error is
returned. -/
def connectWithRetry (a1 a2 : ConnAttempt) : ConnResult :=
  match a1 with
  | .success => .connected 1
  | .syncFail => .failed 1
  | .asyncFail | .timeout =>
    match a2 with
    | .success => .connected 2
    | _ => .failed 2

/-- Modelled from the spec sentence of the claim (for comparison only):
connection establishment "retried up to two additional times", i.e. up
to three attempts in all. -/
def specConnectRetry (a1 a2 a3 : ConnAttempt) : ConnResult :=
  match a1 with
  | .success => .connected 1
  | _ =>
    match a2 with
    | .success => .connected 2
    | _ =>
      match a3 with
      | .success => .connected 3
      | _ => .failed 3

/-- Embedding of `send_message` of `src/quic_client.rs` after the connection phase:
open one stream, write the request, read the response — any mid-stream
failure propagates via `?` with no retry.  The stream phase outcome is
the `stream` parameter; the result carries (outcome, connection
attempts, stream attempts). -/
def send_message (a1 a2 : ConnAttempt) (stream : Except String AiResponse) :
    Except String AiResponse × Nat × Nat :=
  match connectWithRetry a1 a2 with
  | .failed n => (.error "connection failed", n, 0)
  | .connected n =>
    match stream with
    | .ok resp => (.ok resp, n, 1)
    | .error e => (.error e, n, 1)

/-! ## JSON values and serde-style typed parsing (src/quic_tracker.rs
dispatch, src/messages.rs derives) -/

/-- A JSON value as serde_json sees it.  Number tokens are split into
integer tokens (serde_json `u64`/`i64`) and fractional tokens (`f64`,
modeled as a rational); objects are field lists (well-formed payloads,
duplicate keys not modeled). -/
inductive Json where
  | null : Json
  | bool : Bool → Json
  | intNum : Int → Json
  | floatNum : Rat → Json
  | str : String → Json
  | arr : List Json → Json
  | obj : List (String × Json) → Json

/-- First binding of a field name in an object body. -/
def getField (fields : List (String × Json)) (name : String) : Option Json :=
  match fields with
  | [] => none
  | (k, v) :: rest => if k = name then some v else getField rest name

/-- Structural field presence, as the spec's classification sentence
reads: the payload is an object with that field. -/
def hasField (j : Json) (name : String) : Bool :=
  match j with
  | .obj fields => (getField fields name).isSome
  | _ => false

/-- serde `String`: only a JSON string token. -/
def asString : Json → Option String
  | .str s => some s
  | _ => none

/-- serde `u16`: an integer token within the `u16` range. -/
def asU16 : Json → Option Nat
  | .intNum n => if 0 ≤ n ∧ n < 65536 then some n.toNat else none
  | _ => none

/-- serde `u64`/`usize`: an integer token within the 64-bit range. -/
def asU64 : Json → Option Nat
  | .intNum n => if 0 ≤ n ∧ n < 2 ^ 64 then some n.toNat else none
  | _ => none

/-- serde `f64`: an integer or fractional number token. -/
def asF64 : Json → Option Rat
  | .intNum n => some (n : Rat)
  | .floatNum q => some q
  | _ => none

/-- A required struct field: present and of the right type, else the
whole parse fails. -/
def getReqWith {α : Type} (A : Json → Option α)
    (fields : List (String × Json)) (name : String) : Option α :=
  (getField fields name).bind A

/-- An `Option` struct field: missing or `null` is `None`; present with
the wrong type fails the whole parse. -/
def getOptWith {α : Type} (A : Json → Option α)
    (fields : List (String × Json)) (name : String) : Option (Option α) :=
  match getField fields name with
  | none => some none
  | some .null => some none
  | some v => (A v).map some

/-- serde parse of `TrackerAnnounceRequest` (src/messages.rs lines
70-80): `info_hash`, `peer_id` and `port` required, the rest
optional. -/
def parseTrackerAnnounceRequest (j : Json) : Option TrackerAnnounceRequest :=
  match j with
  | .obj fields => do
    let info_hash ← getReqWith asString fields "info_hash"
    let peer_id ← getReqWith asString fields "peer_id"
    let port ← getReqWith asU16 fields "port"
    let uploaded ← getOptWith asU64 fields "uploaded"
    let downloaded ← getOptWith asU64 fields "downloaded"
    let left ← getOptWith asU64 fields "left"
    let event ← getOptWith asString fields "event"
    let ip ← getOptWith asString fields "ip"
    some ⟨info_hash, peer_id, port, uploaded, downloaded, left, event, ip⟩
  | _ => none

/-- serde parse of `FileRequest`: the one required `file` string. -/
def parseFileRequest (j : Json) : Option FileRequest :=
  match j with
  | .obj fields => (getReqWith asString fields "file").map FileRequest.mk
  | _ => none

/-- serde parse of `MessageContext`. -/
def parseMessageContext (j : Json) : Option MessageContext :=
  match j with
  | .obj fields => do
    let role ← getReqWith asString fields "role"
    let content ← getReqWith asString fields "content"
    some ⟨role, content⟩
  | _ => none

/-- serde parse of a JSON array elementwise. -/
def mapOption {α : Type} (A : Json → Option α) : List Json → Option (List α)
  | [] => some []
  | x :: xs => do
    let a ← A x
    let rest ← mapOption A xs
    some (a :: rest)

/-- serde `Vec<MessageContext>`: a JSON array of contexts. -/
def asContextList (j : Json) : Option (List MessageContext) :=
  match j with
  | .arr xs => mapOption parseMessageContext xs
  | _ => none

/-- serde parse of `AiParameters`: all three fields optional. -/
def parseAiParameters (j : Json) : Option AiParameters :=
  match j with
  | .obj fields => do
    let temperature ← getOptWith asF64 fields "temperature"
    let max_tokens ← getOptWith asU64 fields "max_tokens"
    let top_p ← getOptWith asF64 fields "top_p"
    some ⟨temperature, max_tokens, top_p⟩
  | _ => none

/-- serde parse of `AiRequest`: `query` required, `context` and
`parameters` optional. -/
def parseAiRequest (j : Json) : Option AiRequest :=
  match j with
  | .obj fields => do
    let query ← getReqWith asString fields "query"
    let context ← getOptWith asContextList fields "context"
    let parameters ← getOptWith parseAiParameters fields "parameters"
    some ⟨query, context, parameters⟩
  | _ => none

/-- Where a request is routed. -/
inductive Dispatch where
  | announce : TrackerAnnounceRequest → Dispatch
  | file : FileRequest → Dispatch
  | ai : AiRequest → Dispatch
  | unknown : Dispatch

deriving DecidableEq, Repr

/-- The dispatch chain of `handle_quic_connection` (src/quic_tracker.rs
lines 121-155): try the typed parses in fixed order — announce, then
file, then AI — and fall through to the unknown-request handler.  The
input is `none` when the text is not valid JSON at all (serde fails all
three parses). -/
def dispatch_request (input : Option Json) : Dispatch :=
  match input with
  | none => .unknown
  | some j =>
    match parseTrackerAnnounceRequest j with
    | some r => .announce r
    | none =>
      match parseFileRequest j with
      | some r => .file r
      | none =>
        match parseAiRequest j with
        | some r => .ai r
        | none => .unknown

/-! ## Per-stream server behavior (src/quic_tracker.rs lines 74-156) -/

/-- Strict UTF-8 validation and decoding to code points, as
`String::from_utf8` performs it: rejects bare continuation bytes,
overlong forms (C0/C1 leads, E0 A0 and F0 90 floors), surrogates (ED
with a second byte at or above A0) and anything above U+10FFFF (F4
ceiling, F5 and up invalid). -/
def utf8Decode : List Nat → Option (List Nat)
  | [] => some []
  | b :: rest =>
    if b < 128 then (utf8Decode rest).map (fun cs => b :: cs)
    else if b < 194 then none
    else if b < 224 then
      match rest with
      | b2 :: rest2 =>
        if 128 ≤ b2 && b2 < 192 then
          (utf8Decode rest2).map (fun cs => ((b - 192) * 64 + (b2 - 128)) :: cs)
        else none
      | [] => none
    else if b < 240 then
      match rest with
      | b2 :: b3 :: rest3 =>
        if (if b = 224 then 160 else 128) ≤ b2
            && b2 < (if b = 237 then 160 else 192)
            && 128 ≤ b3 && b3 < 192 then
          (utf8Decode rest3).map (fun cs =>
            ((b - 224) * 4096 + (b2 - 128) * 64 + (b3 - 128)) :: cs)
        else none
      | _ => none
    else if b < 245 then
      match rest with
      | b2 :: b3 :: b4 :: rest4 =>
        if (if b = 240 then 144 else 128) ≤ b2
            && b2 < (if b = 244 then 144 else 192)
            && 128 ≤ b3 && b3 < 192 && 128 ≤ b4 && b4 < 192 then
          (utf8Decode rest4).map (fun cs =>
            ((b - 240) * 262144 + (b2 - 128) * 4096 + (b3 - 128) * 64 + (b4 - 128)) :: cs)
        else none
      | _ => none
    else none

/-- What the per-stream task does after reading the whole request. -/
inductive StreamAction where
  | dispatchAnnounce : TrackerAnnounceRequest → StreamAction
  | dispatchFile : FileRequest → StreamAction
  | dispatchAi : AiRequest → StreamAction
  | respondError : String → StreamAction
  | dropStream : StreamAction

deriving DecidableEq, Repr

/-- The per-stream body of `handle_quic_connection`: an empty buffer
returns with nothing written (`dropStream`, lines 91-94); invalid UTF-8
answers INVALID_ENCODING (lines 99-110); otherwise the text is parsed
(`parseJson` abstracts the external serde_json parser) and dispatched,
with an unrecognized payload answered by UNKNOWN_REQUEST (lines
144-155). -/
def stream_action (parseJson : List Nat → Option Json) (input : List Nat) :
    StreamAction :=
  if input.isEmpty then .dropStream
  else
    match utf8Decode input with
    | none => .respondError "INVALID_ENCODING"
    | some cs =>
      match dispatch_request (parseJson cs) with
      | .announce r => .dispatchAnnounce r
      | .file r => .dispatchFile r
      | .ai r => .dispatchAi r
      | .unknown => .respondError "UNKNOWN_REQUEST"

/-! ## AI request handling (src/quic_tracker.rs, handle_ai_request) -/

/-- The local processing block of `handle_ai_request` (lines 370-421):
when an AI processor is present, `process_query_sync` is called and even
its `Err` is converted into an answer string (`"Error: ..."` with empty
metadata), so a present processor always yields a local `AiResponse`;
with no processor the block yields nothing.  The processor outcome is
the explicit `proc` parameter (`none` = no processor). -/
def localAiResponse (proc : Option (Except String (String × ResponseMetadata))) :
    Option AiResponse :=
  proc.map (fun res =>
    match res with
    | .ok (answer, metadata) => ⟨answer, some metadata⟩
    | .error e => ⟨"Error: " ++ e, some ⟨none, none, none, none⟩⟩)

/-- What `handle_ai_request` writes back. -/
inductive ServerReply where
  | ai : AiResponse → ServerReply
  | err : String → ServerReply

deriving DecidableEq, Repr

/-- Embedding of `handle_ai_request` of `src/quic_tracker.rs`: answer locally when a
processor is present; otherwise delegate when a work-distribution
manager is present (`work_dist` carries the delegation outcome, `none` =
no manager); if delegation fails or nothing is available, answer
`ErrorResponse{code=AI_UNAVAILABLE}`.  Serialization of these response
types cannot fail, so the SERIALIZATION_ERROR branch is dead and not
modeled. -/
def handle_ai_request (proc : Option (Except String (String × ResponseMetadata)))
    (work_dist : Option (Except String AiResponse)) : ServerReply :=
  match localAiResponse proc with
  | some resp => .ai resp
  | none =>
    match work_dist with
    | some (.ok resp) => .ai resp
    | some (.error _) => .err "AI_UNAVAILABLE"
    | none => .err "AI_UNAVAILABLE"

/-! ## File request path resolution (src/quic_tracker.rs,
handle_file_request) -/

/-- Embedding of `str::replace("..", "")`: remove the non-overlapping occurrences of
two consecutive dots, scanning left to right. -/
def stripDotDot : List Char → List Char
  | '.' :: '.' :: rest => stripDotDot rest
  | c :: rest => c :: stripDotDot rest
  | [] => []

/-- Embedding of `str::replace(ch, "")` for a single-character pattern. -/
def stripChar (ch : Char) (s : List Char) : List Char :=
  s.filter (fun c => c ≠ ch)

/-- The sanitization of `handle_file_request` (line 268):
`req.file.replace("..", "").replace("\\", "").replace("/", "")`. -/
def sanitize_file (s : List Char) : List Char :=
  stripChar '/' (stripChar '\\' (stripDotDot s))

/-- The resolved path of `handle_file_request` (lines 269-274), as
components relative to the working directory: the fixed base directory
`seed` joined with the sanitized name, or with the default
`hello_world.txt` when the sanitized name is empty. -/
def resolved_file_components (f : List Char) : List (List Char) :=
  if sanitize_file f = [] then ["seed".toList, "hello_world.txt".toList]
  else ["seed".toList, sanitize_file f]

/-- Path normalization: `.` components vanish, `..` pops; popping past
the working directory is `none`. -/
def normGo : List (List Char) → List (List Char) → Option (List (List Char))
  | acc, [] => some acc.reverse
  | acc, c :: rest =>
    if c = ".".toList then normGo acc rest
    else if c = "..".toList then
      match acc with
      | [] => none
      | _ :: acc' => normGo acc' rest
    else normGo (c :: acc) rest

/-- Whether a component path, once normalized, still lies inside the
`seed` base directory (at or below it). -/
def insideSeed (comps : List (List Char)) : Bool :=
  match normGo [] comps with
  | some (c :: _) => c = "seed".toList
  | _ => false

/-! ## Theorems -/

/-! ## Digit and position lemmas -/

theorem natToDigitsGo_all (fuel : Nat) :
    ∀ n, n < fuel → (natToDigitsGo fuel n).all isDigitByte = true := by
  induction fuel with
  | zero => intro n h; omega
  | succ fuel ih =>
    intro n h
    rw [natToDigitsGo]
    by_cases h10 : n < 10
    · simp only [if_pos h10, List.all_cons, List.all_nil, Bool.and_true, isDigitByte]
      simp only [decide_eq_true_eq, Bool.and_eq_true]
      omega
    · rw [if_neg h10, List.all_append]
      have hlt : n / 10 < fuel := by omega
      rw [ih _ hlt]
      simp only [List.all_cons, List.all_nil, Bool.and_true, Bool.true_and, isDigitByte]
      simp only [decide_eq_true_eq, Bool.and_eq_true]
      omega

theorem natToDigitsGo_ne_nil (fuel n : Nat) (h : n < fuel) :
    natToDigitsGo fuel n ≠ [] := by
  match fuel with
  | 0 => omega
  | Nat.succ fuel =>
    rw [natToDigitsGo]
    by_cases h10 : n < 10
    · rw [if_pos h10]
      simp
    · rw [if_neg h10]
      simp

theorem natToDigitsGo_val (fuel : Nat) :
    ∀ n, n < fuel →
      (natToDigitsGo fuel n).foldl (fun acc d => acc * 10 + (d - 48)) 0 = n := by
  induction fuel with
  | zero => intro n h; omega
  | succ fuel ih =>
    intro n h
    rw [natToDigitsGo]
    by_cases h10 : n < 10
    · simp only [if_pos h10, List.foldl_cons, List.foldl_nil]
      omega
    · rw [if_neg h10, List.foldl_append]
      have hlt : n / 10 < fuel := by omega
      rw [ih _ hlt]
      simp only [List.foldl_cons, List.foldl_nil]
      omega

theorem natToDigits_all (n : Nat) : (natToDigits n).all isDigitByte = true :=
  natToDigitsGo_all (n + 1) n (by omega)

theorem natToDigits_ne_nil (n : Nat) : natToDigits n ≠ [] :=
  natToDigitsGo_ne_nil (n + 1) n (by omega)

theorem natToDigits_val (n : Nat) :
    (natToDigits n).foldl (fun acc d => acc * 10 + (d - 48)) 0 = n :=
  natToDigitsGo_val (n + 1) n (by omega)

theorem parseDigitRun_natToDigits (n : Nat) :
    parseDigitRun (natToDigits n) = some n := by
  rw [parseDigitRun, if_pos, natToDigits_val]
  rw [natToDigits_all]
  simp [natToDigits_ne_nil n]

theorem headD_digit (l : List Nat) (h : l ≠ []) (hall : l.all isDigitByte = true) :
    48 ≤ l.headD 0 ∧ l.headD 0 ≤ 57 := by
  match l with
  | [] => exact absurd rfl h
  | b :: rest =>
    simp only [List.all_cons, Bool.and_eq_true, isDigitByte, decide_eq_true_eq,
      Bool.and_eq_true] at hall
    simpa using hall.1

theorem natToDigits_headD (n : Nat) :
    48 ≤ (natToDigits n).headD 0 ∧ (natToDigits n).headD 0 ≤ 57 :=
  headD_digit _ (natToDigits_ne_nil n) (natToDigits_all n)

theorem parseNatBytes_natToDigits (n : Nat) :
    parseNatBytes (natToDigits n) = some n := by
  have hd := natToDigits_headD n
  rw [parseNatBytes, if_neg (by omega)]
  exact parseDigitRun_natToDigits n

theorem parseIntBytes_intToDigits (i : Int) :
    parseIntBytes (intToDigits i) = some i := by
  rw [intToDigits]
  by_cases hneg : i < 0
  · rw [if_pos hneg]
    have hstep : parseIntBytes (45 :: natToDigits i.natAbs)
        = (parseDigitRun (natToDigits i.natAbs)).map (fun n => -(Int.ofNat n)) := by
      rw [parseIntBytes]
      simp
    rw [hstep, parseDigitRun_natToDigits]
    simp only [Option.map_some', Option.some.injEq, Int.ofNat_eq_coe]
    omega
  · rw [if_neg hneg]
    have hd := natToDigits_headD i.toNat
    rw [parseIntBytes, if_neg (by omega), if_neg (by omega), parseDigitRun_natToDigits]
    simp only [Option.map_some', Option.some.injEq, Int.ofNat_eq_coe]
    omega

theorem positionOf_miss_append (t : Nat) (l r : List Nat)
    (h : ∀ x ∈ l, x ≠ t) :
    positionOf t (l ++ r) = (positionOf t r).map (· + l.length) := by
  induction l with
  | nil => simp [Option.map_id']
  | cons b rest ih =>
    have hb : b ≠ t := h b (by simp)
    have ih' := ih (fun x hx => h x (by simp [hx]))
    rw [List.cons_append]
    rw [show positionOf t (b :: (rest ++ r))
        = if b = t then some 0 else (positionOf t (rest ++ r)).map (· + 1) from rfl]
    rw [if_neg hb, ih']
    cases positionOf t r with
    | none => simp
    | some m =>
      simp only [Option.map_some', Option.some.injEq, List.length_cons]
      omega

theorem positionOf_cons_self (t : Nat) (r : List Nat) :
    positionOf t (t :: r) = some 0 := by
  simp [positionOf]

theorem digits_ne_58 (n : Nat) : ∀ x ∈ natToDigits n, x ≠ 58 := by
  intro x hx
  have hall := natToDigits_all n
  rw [List.all_eq_true] at hall
  have := hall x hx
  simp only [isDigitByte, Bool.and_eq_true, decide_eq_true_eq] at this
  omega

theorem digits_ne_101 (n : Nat) : ∀ x ∈ natToDigits n, x ≠ 101 := by
  intro x hx
  have hall := natToDigits_all n
  rw [List.all_eq_true] at hall
  have := hall x hx
  simp only [isDigitByte, Bool.and_eq_true, decide_eq_true_eq] at this
  omega

theorem intToDigits_ne_101 (i : Int) : ∀ x ∈ intToDigits i, x ≠ 101 := by
  intro x hx
  rw [intToDigits] at hx
  by_cases hneg : i < 0
  · rw [if_pos hneg] at hx
    rcases List.mem_cons.mp hx with h45 | hmem
    · omega
    · exact digits_ne_101 _ x hmem
  · rw [if_neg hneg] at hx
    exact digits_ne_101 _ x hx

/-! ## Order lemmas for the dictionary keys -/

theorem bytesLt_irrefl : ∀ a : List Nat, bytesLt a a = false := by
  intro a
  induction a with
  | nil => rfl
  | cons x xs ih => simp [bytesLt, ih]

theorem bytesLt_asymm : ∀ a b : List Nat, bytesLt a b = true → bytesLt b a = false := by
  intro a
  induction a with
  | nil =>
    intro b h
    cases b with
    | nil => simp [bytesLt] at h
    | cons bh bt => simp [bytesLt]
  | cons ah as' ih =>
    intro b h
    cases b with
    | nil => simp [bytesLt] at h
    | cons bh bt =>
      simp only [bytesLt] at h ⊢
      split_ifs at h ⊢ <;>
        first
        | rfl
        | omega
        | simp_all

theorem bytesLt_ne {a b : List Nat} (h : bytesLt a b = true) : a ≠ b := by
  intro heq
  rw [heq, bytesLt_irrefl] at h
  exact Bool.false_ne_true h

theorem bytesLt_trans : ∀ a b c : List Nat,
    bytesLt a b = true → bytesLt b c = true → bytesLt a c = true := by
  intro a
  induction a with
  | nil =>
    intro b c h1 h2
    cases b with
    | nil => simp [bytesLt] at h1
    | cons bh bt =>
      cases c with
      | nil => simp [bytesLt] at h2
      | cons ch ct => simp [bytesLt]
  | cons ah as' ih =>
    intro b c h1 h2
    cases b with
    | nil => simp [bytesLt] at h1
    | cons bh bt =>
      cases c with
      | nil => simp [bytesLt] at h2
      | cons ch ct =>
        simp only [bytesLt] at h1 h2 ⊢
        split_ifs at h1 h2 ⊢ with g1 g2 g3 g4 g5 g6 <;> try simp_all
        all_goals try omega
        all_goals exact ih bt ct h1 h2

theorem btreeInsert_append (k : List Nat) (v : BencodeValue) :
    ∀ acc : List (List Nat × BencodeValue),
      (∀ p ∈ acc, bytesLt p.1 k = true) →
      btreeInsert k v acc = acc ++ [(k, v)] := by
  intro acc
  induction acc with
  | nil => intro _; rfl
  | cons p rest ih =>
    intro h
    have hp : bytesLt p.1 k = true := h p (by simp)
    match p with
    | (k', v') =>
      rw [btreeInsert]
      rw [if_neg (by rw [bytesLt_asymm _ _ hp]; simp)]
      rw [if_neg (Ne.symm (bytesLt_ne hp))]
      rw [ih (fun q hq => h q (by simp [hq]))]
      simp

/-! ## Unfolding equations for the fueled decoder -/

theorem decodeBen_succ_cons (fuel b : Nat) (t : List Nat) :
    decodeBen (fuel + 1) (b :: t) =
      (if b = 105 then
        match positionOf 101 (b :: t) with
        | none => none
        | some e =>
          match parseIntBytes (((b :: t).drop 1).take (e - 1)) with
          | none => none
          | some num => some (.int num, e + 1)
      else if b = 100 then
        match decodeBenDict fuel ((b :: t).drop 1) [] with
        | none => none
        | some (pairs, consumed) =>
          let pos := 1 + consumed
          if pos < (b :: t).length && (b :: t).getD pos 0 = 101 then
            some (.dict pairs, pos + 1)
          else none
      else if isDigitByte b then
        match positionOf 58 (b :: t) with
        | none => none
        | some colon =>
          match parseNatBytes ((b :: t).take colon) with
          | none => none
          | some len =>
            let start := colon + 1
            if start + len > (b :: t).length then none
            else some (.str (((b :: t).drop start).take len), start + len)
      else none) := rfl

theorem decodeBenDict_succ_cons (fuel b : Nat) (t : List Nat)
    (acc : List (List Nat × BencodeValue)) :
    decodeBenDict (fuel + 1) (b :: t) acc =
      (if b = 101 then some (acc, 0)
      else
        match decodeBen fuel (b :: t) with
        | some (.str k, klen) =>
          match decodeBen fuel ((b :: t).drop klen) with
          | some (v, vlen) =>
            match decodeBenDict fuel ((b :: t).drop (klen + vlen)) (btreeInsert k v acc) with
            | some (pairs, c) => some (pairs, klen + vlen + c)
            | none => none
          | none => none
        | some _ => none
        | none => none) := rfl

theorem decodeBenDict_succ_nil (fuel : Nat) (acc : List (List Nat × BencodeValue)) :
    decodeBenDict (fuel + 1) [] acc = some (acc, 0) := rfl

/-! ## Decoding an encoded string or integer, within a larger stream -/

theorem decodeBen_string (fuel : Nat) (s rest : List Nat) :
    decodeBen (fuel + 1) (bencode_string s ++ rest)
      = some (.str s, (bencode_string s).length) := by
  obtain ⟨d, dt, hds⟩ := List.exists_cons_of_ne_nil (natToDigits_ne_nil s.length)
  have hdig : 48 ≤ d ∧ d ≤ 57 := by
    have hh := natToDigits_headD s.length
    rw [hds] at hh
    simpa using hh
  have hassoc : bencode_string s ++ rest
      = natToDigits s.length ++ (58 :: (s ++ rest)) := by
    simp [bencode_string]
  have hpos : positionOf 58 (bencode_string s ++ rest)
      = some (natToDigits s.length).length := by
    rw [hassoc, positionOf_miss_append 58 _ _ (digits_ne_58 s.length),
      positionOf_cons_self]
    simp
  have htake : (bencode_string s ++ rest).take (natToDigits s.length).length
      = natToDigits s.length := by
    rw [hassoc]
    exact List.take_left _ _
  have hdrop1 : (bencode_string s ++ rest).drop ((natToDigits s.length).length + 1)
      = s ++ rest := by
    rw [hassoc, ← List.drop_drop, List.drop_left]
    rfl
  have hlen : (bencode_string s ++ rest).length
      = (natToDigits s.length).length + 1 + s.length + rest.length := by
    rw [hassoc]
    simp
    omega
  have hcons : bencode_string s ++ rest = d :: (dt ++ (58 :: (s ++ rest))) := by
    rw [hassoc, hds]
    rfl
  rw [hcons, decodeBen_succ_cons, ← hcons]
  rw [if_neg (by omega), if_neg (by omega),
    if_pos (by simp only [isDigitByte, Bool.and_eq_true, decide_eq_true_eq]; omega)]
  rw [hpos]
  simp only
  rw [htake, parseNatBytes_natToDigits]
  simp only
  rw [if_neg (by rw [hlen]; omega)]
  rw [hdrop1, List.take_left]
  have hfinal : (natToDigits s.length).length + 1 + s.length
      = (bencode_string s).length := by
    simp [bencode_string]
    omega
  rw [hfinal]

theorem decodeBen_int (fuel : Nat) (i : Int) (rest : List Nat) :
    decodeBen (fuel + 1) (bencode_int i ++ rest)
      = some (.int i, (bencode_int i).length) := by
  have hassoc : bencode_int i ++ rest
      = 105 :: (intToDigits i ++ (101 :: rest)) := by
    simp [bencode_int]
  have hpos : positionOf 101 (bencode_int i ++ rest)
      = some ((intToDigits i).length + 1) := by
    rw [hassoc]
    rw [show positionOf 101 (105 :: (intToDigits i ++ (101 :: rest)))
        = if (105 : Nat) = 101 then some 0
          else (positionOf 101 (intToDigits i ++ (101 :: rest))).map (· + 1) from rfl]
    rw [if_neg (by omega)]
    rw [positionOf_miss_append 101 _ _ (intToDigits_ne_101 i), positionOf_cons_self]
    simp
  have htake : ((bencode_int i ++ rest).drop 1).take (intToDigits i).length
      = intToDigits i := by
    rw [hassoc]
    rw [show (105 :: (intToDigits i ++ (101 :: rest))).drop 1
        = intToDigits i ++ (101 :: rest) from rfl]
    exact List.take_left _ _
  have hcons : bencode_int i ++ rest = 105 :: (intToDigits i ++ (101 :: rest)) := hassoc
  rw [hcons, decodeBen_succ_cons, ← hcons]
  rw [if_pos rfl]
  rw [hpos]
  simp only [Nat.add_sub_cancel]
  rw [htake, parseIntBytes_intToDigits]
  have hfinal : (intToDigits i).length + 1 + 1 = (bencode_int i).length := by
    simp [bencode_int]
  rw [hfinal]

theorem repPairs_cons (ps' : List (List Nat × BencodeValue)) :
    ∀ (k : List Nat) (v : BencodeValue),
      bencodeRepPairs ((k, v) :: ps') = true →
      bencodeRep v = true ∧ bencodeRepPairs ps' = true ∧
        ∀ q ∈ ps', bytesLt k q.1 = true := by
  induction ps' with
  | nil =>
    intro k v h
    refine ⟨h, rfl, ?_⟩
    intro q hq
    simp at hq
  | cons p1 rest ih =>
    intro k v h
    match p1 with
    | (k1, v1) =>
      rw [bencodeRepPairs] at h
      simp only [Bool.and_eq_true] at h
      obtain ⟨hlt, hv, hrest⟩ := h
      obtain ⟨hv1, hrestps, hk1lt⟩ := ih k1 v1 hrest
      refine ⟨hv, hrest, ?_⟩
      intro q hq
      rcases List.mem_cons.mp hq with rfl | hq'
      · exact hlt
      · exact bytesLt_trans _ _ _ hlt (hk1lt q hq')

/-! ## Round trip: decoding an encoded representable value -/

mutual

theorem decodeBen_encode : ∀ (v : BencodeValue) (rest : List Nat) (fuel : Nat),
    bencodeRep v = true → fuelNeed v ≤ fuel →
    decodeBen fuel (bencodeEncode v ++ rest) = some (v, (bencodeEncode v).length)
  | .str s, rest, fuel, _, hfuel => by
    obtain ⟨f, rfl⟩ : ∃ f, fuel = f + 1 := by
      cases fuel with
      | zero => rw [fuelNeed] at hfuel; omega
      | succ f => exact ⟨f, rfl⟩
    exact decodeBen_string f s rest
  | .int i, rest, fuel, _, hfuel => by
    obtain ⟨f, rfl⟩ : ∃ f, fuel = f + 1 := by
      cases fuel with
      | zero => rw [fuelNeed] at hfuel; omega
      | succ f => exact ⟨f, rfl⟩
    exact decodeBen_int f i rest
  | .dict ps, rest, fuel, hrep, hfuel => by
    obtain ⟨f, rfl⟩ : ∃ f, fuel = f + 1 := by
      cases fuel with
      | zero => rw [fuelNeed] at hfuel; omega
      | succ f => exact ⟨f, rfl⟩
    have hf : fuelNeedPairs ps ≤ f := by
      rw [fuelNeed] at hfuel
      omega
    have hrep' : bencodeRepPairs ps = true := by
      rw [bencodeRep] at hrep
      exact hrep
    have hloop := decodeBenDict_encode ps [] rest f hrep'
      (by intro p hp; simp at hp) hf
    have hdata : bencodeEncode (.dict ps) ++ rest
        = 100 :: (bencodeEncodePairs ps ++ (101 :: rest)) := by
      rw [bencodeEncode]
      simp
    rw [hdata, decodeBen_succ_cons]
    rw [if_neg (by omega), if_pos rfl]
    rw [show ((100 : Nat) :: (bencodeEncodePairs ps ++ (101 :: rest))).drop 1
        = bencodeEncodePairs ps ++ (101 :: rest) from rfl]
    rw [hloop]
    simp only [List.nil_append]
    have hlenc : ((100 : Nat) :: (bencodeEncodePairs ps ++ (101 :: rest))).length
        = (bencodeEncodePairs ps).length + 2 + rest.length := by
      simp
      omega
    have hidx : ((100 : Nat) :: (bencodeEncodePairs ps ++ (101 :: rest))).getD
        (1 + (bencodeEncodePairs ps).length) 0 = 101 := by
      rw [Nat.add_comm 1 (bencodeEncodePairs ps).length, List.getD_cons_succ]
      rw [List.getD_append_right _ _ _ _ (Nat.le_refl _)]
      simp
    rw [if_pos (by
      simp only [Bool.and_eq_true, decide_eq_true_eq]
      constructor
      · rw [hlenc]; omega
      · exact hidx)]
    have hlen2 : (bencodeEncode (.dict ps)).length
        = 1 + (bencodeEncodePairs ps).length + 1 := by
      rw [bencodeEncode]
      simp
      omega
    rw [hlen2]

theorem decodeBenDict_encode : ∀ (ps acc : List (List Nat × BencodeValue))
    (rest : List Nat) (fuel : Nat),
    bencodeRepPairs ps = true →
    (∀ p ∈ acc, ∀ q ∈ ps, bytesLt p.1 q.1 = true) →
    fuelNeedPairs ps ≤ fuel →
    decodeBenDict fuel (bencodeEncodePairs ps ++ (101 :: rest)) acc
      = some (acc ++ ps, (bencodeEncodePairs ps).length)
  | [], acc, rest, fuel, _, _, hfuel => by
    obtain ⟨f, rfl⟩ : ∃ f, fuel = f + 1 := by
      cases fuel with
      | zero => rw [fuelNeedPairs] at hfuel; omega
      | succ f => exact ⟨f, rfl⟩
    rw [show bencodeEncodePairs [] ++ (101 :: rest) = 101 :: rest from rfl]
    rw [decodeBenDict_succ_cons, if_pos rfl]
    simp [bencodeEncodePairs]
  | (k, v) :: ps', acc, rest, fuel, hrep, hacc, hfuel => by
    obtain ⟨f, rfl⟩ : ∃ f, fuel = f + 1 := by
      cases fuel with
      | zero => rw [fuelNeedPairs] at hfuel; omega
      | succ f => exact ⟨f, rfl⟩
    have hfbits : 1 ≤ f ∧ fuelNeed v ≤ f ∧ fuelNeedPairs ps' ≤ f := by
      rw [fuelNeedPairs] at hfuel
      omega
    obtain ⟨hrepv, hrepps', hklt⟩ := repPairs_cons ps' k v hrep
    have hdata : bencodeEncodePairs ((k, v) :: ps') ++ (101 :: rest)
        = bencode_string k ++ (bencodeEncode v ++ (bencodeEncodePairs ps' ++ (101 :: rest))) := by
      rw [bencodeEncodePairs]
      simp
    obtain ⟨d, dt, hds⟩ := List.exists_cons_of_ne_nil (natToDigits_ne_nil k.length)
    have hdig : 48 ≤ d ∧ d ≤ 57 := by
      have hh := natToDigits_headD k.length
      rw [hds] at hh
      simpa using hh
    have hcons : bencode_string k ++ (bencodeEncode v ++ (bencodeEncodePairs ps' ++ (101 :: rest)))
        = d :: (dt ++ (58 :: k) ++ (bencodeEncode v ++ (bencodeEncodePairs ps' ++ (101 :: rest)))) := by
      rw [bencode_string, hds]
      simp
    obtain ⟨g, hgf⟩ : ∃ g, f = g + 1 := by
      refine ⟨f - 1, ?_⟩
      omega
    have hkey : decodeBen f (bencode_string k ++ (bencodeEncode v ++ (bencodeEncodePairs ps' ++ (101 :: rest))))
        = some (.str k, (bencode_string k).length) := by
      rw [hgf]
      exact decodeBen_string g k _
    have hdropk : (bencode_string k ++ (bencodeEncode v ++ (bencodeEncodePairs ps' ++ (101 :: rest)))).drop
        (bencode_string k).length
        = bencodeEncode v ++ (bencodeEncodePairs ps' ++ (101 :: rest)) :=
      List.drop_left _ _
    have hval : decodeBen f (bencodeEncode v ++ (bencodeEncodePairs ps' ++ (101 :: rest)))
        = some (v, (bencodeEncode v).length) :=
      decodeBen_encode v _ f hrepv hfbits.2.1
    have hdropkv : (bencode_string k ++ (bencodeEncode v ++ (bencodeEncodePairs ps' ++ (101 :: rest)))).drop
        ((bencode_string k).length + (bencodeEncode v).length)
        = bencodeEncodePairs ps' ++ (101 :: rest) := by
      rw [← List.drop_drop, hdropk]
      exact List.drop_left _ _
    have hins : btreeInsert k v acc = acc ++ [(k, v)] := by
      refine btreeInsert_append k v acc ?_
      intro p hp
      exact hacc p hp (k, v) (by simp)
    have hacc' : ∀ p ∈ acc ++ [(k, v)], ∀ q ∈ ps', bytesLt p.1 q.1 = true := by
      intro p hp q hq
      rcases List.mem_append.mp hp with hpa | hpk
      · exact hacc p hpa q (by simp [hq])
      · have : p = (k, v) := by simpa using hpk
        rw [this]
        exact hklt q hq
    have hloop : decodeBenDict f (bencodeEncodePairs ps' ++ (101 :: rest)) (acc ++ [(k, v)])
        = some ((acc ++ [(k, v)]) ++ ps', (bencodeEncodePairs ps').length) :=
      decodeBenDict_encode ps' (acc ++ [(k, v)]) rest f hrepps' hacc' hfbits.2.2
    rw [hdata, hcons, decodeBenDict_succ_cons, ← hcons]
    rw [if_neg (by omega)]
    rw [hkey]
    simp only
    rw [hdropk, hval]
    simp only
    rw [hdropkv, hins, hloop]
    simp only
    rw [show acc ++ [(k, v)] ++ ps' = acc ++ (k, v) :: ps' by simp]
    rw [show (bencodeEncodePairs ((k, v) :: ps')).length
        = (bencode_string k).length + (bencodeEncode v).length + (bencodeEncodePairs ps').length by
      rw [bencodeEncodePairs]
      simp
      omega]

end

mutual

theorem fuelNeed_le_encode : ∀ v : BencodeValue,
    fuelNeed v ≤ 2 * (bencodeEncode v).length
  | .str s => by
    rw [fuelNeed, bencodeEncode, bencode_string]
    simp
    omega
  | .int i => by
    rw [fuelNeed, bencodeEncode, bencode_int]
    simp
    omega
  | .dict ps => by
    rw [fuelNeed, bencodeEncode]
    have h := fuelNeedPairs_le_encode ps
    simp
    omega

theorem fuelNeedPairs_le_encode : ∀ ps : List (List Nat × BencodeValue),
    fuelNeedPairs ps ≤ 2 * (bencodeEncodePairs ps).length + 1
  | [] => by
    rw [fuelNeedPairs]
    simp [bencodeEncodePairs]
  | (k, v) :: ps' => by
    rw [fuelNeedPairs, bencodeEncodePairs]
    have hv := fuelNeed_le_encode v
    have hp := fuelNeedPairs_le_encode ps'
    have hk : 1 ≤ (bencode_string k).length := by
      rw [bencode_string]
      simp
      omega
    simp
    omega

end

/-- Round trip at the top level: decoding the encoding of any
representable value gives the value back, consuming the whole buffer. -/
theorem decode_bencode_encode (v : BencodeValue) (hrep : bencodeRep v = true) :
    decode_bencode (bencodeEncode v) = some (v, (bencodeEncode v).length) := by
  rw [decode_bencode]
  have hfuel : fuelNeed v ≤ 2 * (bencodeEncode v).length + 2 :=
    Nat.le_trans (fuelNeed_le_encode v) (by omega)
  have h := decodeBen_encode v [] (2 * (bencodeEncode v).length + 2) hrep hfuel
  simpa using h

theorem bytesLt_total : ∀ a b : List Nat,
    bytesLt a b = true ∨ a = b ∨ bytesLt b a = true := by
  intro a
  induction a with
  | nil =>
    intro b
    cases b with
    | nil => right; left; rfl
    | cons bh bt => left; rfl
  | cons ah as' ih =>
    intro b
    cases b with
    | nil => right; right; rfl
    | cons bh bt =>
      rcases Nat.lt_trichotomy ah bh with hlt | heq | hgt
      · left
        simp [bytesLt, hlt]
      · subst heq
        rcases ih bt with h1 | h2 | h3
        · left
          simp [bytesLt, h1]
        · right; left
          rw [h2]
        · right; right
          simp [bytesLt, h3]
      · right; right
        simp [bytesLt, hgt]

theorem btreeInsert_mem (k : List Nat) (v : BencodeValue) :
    ∀ (l : List (List Nat × BencodeValue)) (p : List Nat × BencodeValue),
      p ∈ btreeInsert k v l → p = (k, v) ∨ p ∈ l := by
  intro l
  induction l with
  | nil =>
    intro p hp
    rw [btreeInsert] at hp
    simp at hp
    left
    exact hp
  | cons q rest ih =>
    intro p hp
    match q with
    | (k', v') =>
      rw [btreeInsert] at hp
      split_ifs at hp with h1 h2
      · rcases List.mem_cons.mp hp with rfl | hp'
        · left; rfl
        · right; exact hp'
      · rcases List.mem_cons.mp hp with rfl | hp'
        · left; rfl
        · right; exact List.mem_cons_of_mem _ hp'
      · rcases List.mem_cons.mp hp with rfl | hp'
        · right; exact List.mem_cons_self _ _
        · rcases ih p hp' with hk | hr
          · left; exact hk
          · right; exact List.mem_cons_of_mem _ hr

theorem btreeInsert_sorted (k : List Nat) (v : BencodeValue) :
    ∀ l : List (List Nat × BencodeValue),
      List.Pairwise (fun p q => bytesLt p.1 q.1 = true) l →
      List.Pairwise (fun p q => bytesLt p.1 q.1 = true) (btreeInsert k v l) := by
  intro l
  induction l with
  | nil =>
    intro _
    rw [btreeInsert]
    simp
  | cons q rest ih =>
    intro hs
    match q with
    | (k', v') =>
      rw [List.pairwise_cons] at hs
      obtain ⟨hq, hrest⟩ := hs
      rw [btreeInsert]
      split_ifs with h1 h2
      · rw [List.pairwise_cons]
        refine ⟨?_, ?_⟩
        · intro p hp
          rcases List.mem_cons.mp hp with rfl | hp'
          · exact h1
          · exact bytesLt_trans _ _ _ h1 (hq p hp')
        · rw [List.pairwise_cons]
          exact ⟨hq, hrest⟩
      · rw [List.pairwise_cons]
        refine ⟨?_, hrest⟩
        intro p hp
        rw [h2]
        exact hq p hp
      · rw [List.pairwise_cons]
        refine ⟨?_, ih hrest⟩
        intro p hp
        rcases btreeInsert_mem k v rest p hp with rfl | hp'
        · rcases bytesLt_total k' k with hlt | heq | hgt
          · exact hlt
          · exact absurd heq.symm h2
          · exact absurd hgt (by simp [h1])
        · exact hq p hp'

theorem btreeInsert_perm (k : List Nat) (v : BencodeValue) :
    ∀ l : List (List Nat × BencodeValue),
      k ∉ l.map Prod.fst →
      List.Perm (btreeInsert k v l) ((k, v) :: l) := by
  intro l
  induction l with
  | nil =>
    intro _
    rw [btreeInsert]
  | cons q rest ih =>
    intro hk
    match q with
    | (k', v') =>
      have hkk' : k ≠ k' := by
        intro heq
        exact hk (by simp [heq])
      rw [btreeInsert]
      split_ifs with h1
      · exact List.Perm.refl _
      · have hk' : k ∉ rest.map Prod.fst := by
          intro hmem
          exact hk (by simp [hmem])
        exact List.Perm.trans (List.Perm.cons _ (ih hk')) (List.Perm.swap _ _ _)

theorem btreeFold_sorted (ps : List (List Nat × BencodeValue)) :
    ∀ acc : List (List Nat × BencodeValue),
      List.Pairwise (fun p q => bytesLt p.1 q.1 = true) acc →
      List.Pairwise (fun p q => bytesLt p.1 q.1 = true)
        (ps.foldl (fun acc kv => btreeInsert kv.1 kv.2 acc) acc) := by
  induction ps with
  | nil => intro acc h; exact h
  | cons kv ps' ih =>
    intro acc h
    rw [List.foldl_cons]
    exact ih _ (btreeInsert_sorted kv.1 kv.2 acc h)

theorem btreeFold_perm (ps : List (List Nat × BencodeValue)) :
    ∀ acc : List (List Nat × BencodeValue),
      ((acc ++ ps).map Prod.fst).Nodup →
      List.Perm (ps.foldl (fun acc kv => btreeInsert kv.1 kv.2 acc) acc) (acc ++ ps) := by
  induction ps with
  | nil =>
    intro acc _
    rw [List.foldl_nil, List.append_nil]
  | cons kv ps' ih =>
    intro acc hnd
    match kv with
    | (k, v) =>
      rw [List.foldl_cons]
      have hknotacc : k ∉ acc.map Prod.fst := by
        intro hmem
        rw [List.map_append] at hnd
        rcases List.nodup_append.mp hnd with ⟨_, _, hdisj⟩
        exact hdisj hmem (by simp)
      have hinsperm : List.Perm (btreeInsert k v acc) ((k, v) :: acc) :=
        btreeInsert_perm k v acc hknotacc
      have hkeysperm : List.Perm ((btreeInsert k v acc ++ ps').map Prod.fst)
          ((acc ++ (k, v) :: ps').map Prod.fst) := by
        apply List.Perm.map
        refine List.Perm.trans (List.Perm.append_right ps' hinsperm) ?_
        exact List.Perm.symm List.perm_middle
      have hnd' : ((btreeInsert k v acc ++ ps').map Prod.fst).Nodup :=
        (List.Perm.nodup_iff hkeysperm).mpr hnd
      have hstep := ih (btreeInsert k v acc) hnd'
      refine List.Perm.trans hstep ?_
      refine List.Perm.trans (List.Perm.append_right ps' hinsperm) ?_
      exact List.Perm.symm List.perm_middle

/-- The stored order of a dictionary built by repeated insertion is
always strictly key-sorted, so the encoder emits keys in deterministic
sorted order. -/
theorem btreeOfList_sorted (ps : List (List Nat × BencodeValue)) :
    List.Pairwise (fun p q => bytesLt p.1 q.1 = true) (btreeOfList ps) :=
  btreeFold_sorted ps [] (by simp)

theorem btreeOfList_perm (ps : List (List Nat × BencodeValue))
    (hnd : (ps.map Prod.fst).Nodup) : List.Perm (btreeOfList ps) ps := by
  have h := btreeFold_perm ps [] (by simpa using hnd)
  simpa using h

/-- Insertion order does not matter: building the map from any
permutation of the same (distinct-key) pairs gives the identical stored
list, hence the identical encoding. -/
theorem btreeOfList_eq_of_perm (ps ps' : List (List Nat × BencodeValue))
    (hperm : List.Perm ps ps') (hnd : (ps.map Prod.fst).Nodup) :
    btreeOfList ps = btreeOfList ps' := by
  haveI : IsAntisymm (List Nat × BencodeValue) (fun p q => bytesLt p.1 q.1 = true) :=
    ⟨fun a b h1 h2 => by
      rw [bytesLt_asymm _ _ h1] at h2
      exact (Bool.false_ne_true h2).elim⟩
  have hnd' : (ps'.map Prod.fst).Nodup :=
    (List.Perm.nodup_iff (List.Perm.map Prod.fst hperm)).mp hnd
  have p1 := btreeOfList_perm ps hnd
  have p2 := btreeOfList_perm ps' hnd'
  exact List.eq_of_perm_of_sorted
    (List.Perm.trans p1 (List.Perm.trans hperm (List.Perm.symm p2)))
    (btreeOfList_sorted ps) (btreeOfList_sorted ps')

/-- C7: for every representable bencode value (byte string, integer, or
dictionary with byte-string keys), decoding the encoding yields exactly
the value back (consuming the whole encoding); building the dictionary
map from any insertion order of the same distinct-key pairs gives the
identical stored map, so the encoding is insertion-order independent; and
the stored map (hence the emitted key order) is deterministically
sorted. -/
theorem bencode_roundtrip_c7 :
    (∀ v : BencodeValue, bencodeRep v = true →
      decode_bencode (bencodeEncode v) = some (v, (bencodeEncode v).length))
    ∧ (∀ ps ps' : List (List Nat × BencodeValue), List.Perm ps ps' →
        (ps.map Prod.fst).Nodup → btreeOfList ps = btreeOfList ps')
    ∧ (∀ ps : List (List Nat × BencodeValue),
        List.Pairwise (fun p q => bytesLt p.1 q.1 = true) (btreeOfList ps)) :=
  ⟨decode_bencode_encode, btreeOfList_eq_of_perm, btreeOfList_sorted⟩

/-- Witness for C7 at concrete inputs: the spec's Scenario 1 value
`{"length": 12345}` round-trips, and a two-key dictionary built in either
insertion order yields the same map. -/
theorem bencode_roundtrip_c7_witness :
    decode_bencode (bencodeEncode (BencodeValue.dict
        [([108, 101, 110, 103, 116, 104], BencodeValue.int 12345)]))
      = some (BencodeValue.dict
          [([108, 101, 110, 103, 116, 104], BencodeValue.int 12345)],
          (bencodeEncode (BencodeValue.dict
            [([108, 101, 110, 103, 116, 104], BencodeValue.int 12345)])).length)
    ∧ btreeOfList [([107], BencodeValue.int 1), ([108], BencodeValue.int 2)]
        = btreeOfList [([108], BencodeValue.int 2), ([107], BencodeValue.int 1)] :=
  ⟨bencode_roundtrip_c7.1 _ rfl,
   bencode_roundtrip_c7.2.1 _ _ (List.Perm.swap _ _ _) (by decide)⟩

/-- C1 counterexample: in the spec's Scenario 2 (announce P1 with
event=started, then announce P2, same info hash), the response to P2
does contain exactly the one peer P1, but `complete + incomplete`
equals 2, not 1: the counts are taken over the whole updated peer list,
which includes the requester P2. -/
theorem announce_scenario_c1_counterexample :
    (handle_announce_request ⟨"H", "P2", 6882, none, none, none, none, none⟩
      (handle_announce_request ⟨"H", "P1", 6881, none, none, none, some "started", none⟩
        (fun _ => [])).1).2.peers = [⟨"127.0.0.1", 6881⟩]
    ∧ (handle_announce_request ⟨"H", "P2", 6882, none, none, none, none, none⟩
      (handle_announce_request ⟨"H", "P1", 6881, none, none, none, some "started", none⟩
        (fun _ => [])).1).2.complete
      + (handle_announce_request ⟨"H", "P2", 6882, none, none, none, none, none⟩
      (handle_announce_request ⟨"H", "P1", 6881, none, none, none, some "started", none⟩
        (fun _ => [])).1).2.incomplete = 2
    ∧ ¬((handle_announce_request ⟨"H", "P2", 6882, none, none, none, none, none⟩
      (handle_announce_request ⟨"H", "P1", 6881, none, none, none, some "started", none⟩
        (fun _ => [])).1).2.complete
      + (handle_announce_request ⟨"H", "P2", 6882, none, none, none, none, none⟩
      (handle_announce_request ⟨"H", "P1", 6881, none, none, none, some "started", none⟩
        (fun _ => [])).1).2.incomplete = 1) := by
  refine ⟨rfl, rfl, ?_⟩
  decide

/-- C1 amended: in Scenario 2 (any info hash, distinct peer ids, any
ports), the response to the second announce contains exactly one peer —
P1 at the default ip — and `complete + incomplete` equals 2: both
registered peers are counted, the requester included. -/
theorem announce_scenario_c1_amended (h p1 p2 : String) (port1 port2 : Nat)
    (hne : p1 ≠ p2) :
    (handle_announce_request ⟨h, p2, port2, none, none, none, none, none⟩
      (handle_announce_request ⟨h, p1, port1, none, none, none, some "started", none⟩
        (fun _ => [])).1).2.peers = [⟨"127.0.0.1", port1⟩]
    ∧ (handle_announce_request ⟨h, p2, port2, none, none, none, none, none⟩
      (handle_announce_request ⟨h, p1, port1, none, none, none, some "started", none⟩
        (fun _ => [])).1).2.complete
      + (handle_announce_request ⟨h, p2, port2, none, none, none, none, none⟩
      (handle_announce_request ⟨h, p1, port1, none, none, none, some "started", none⟩
        (fun _ => [])).1).2.incomplete = 2 := by
  simp only [handle_announce_request, mkPeer]
  simp [hne, Ne.symm hne]

/-- Witness for the amended C1 at a concrete instance. -/
theorem announce_scenario_c1_amended_witness :
    (handle_announce_request ⟨"H", "P2", 2, none, none, none, none, none⟩
      (handle_announce_request ⟨"H", "P1", 1, none, none, none, some "started", none⟩
        (fun _ => [])).1).2.peers = [⟨"127.0.0.1", 1⟩]
    ∧ (handle_announce_request ⟨"H", "P2", 2, none, none, none, none, none⟩
      (handle_announce_request ⟨"H", "P1", 1, none, none, none, some "started", none⟩
        (fun _ => [])).1).2.complete
      + (handle_announce_request ⟨"H", "P2", 2, none, none, none, none, none⟩
      (handle_announce_request ⟨"H", "P1", 1, none, none, none, some "started", none⟩
        (fun _ => [])).1).2.incomplete = 2 :=
  announce_scenario_c1_amended "H" "P1" "P2" 1 2 (by decide)

/-- C10: when every optional field of an announce request is absent, the
stored peer record defaults uploaded, downloaded and left to 0 and the ip
to 127.0.0.1; such a peer is inserted (event absent, so not `stopped`),
lands in the `complete` filter of the response (its `left` is 0), and
never in the `incomplete` filter. -/
theorem announce_defaults_c10 (st : TrackerState) (req : TrackerAnnounceRequest)
    (hu : req.uploaded = none) (hd : req.downloaded = none) (hl : req.left = none)
    (hip : req.ip = none) (hev : req.event = none) :
    mkPeer req = ⟨req.peer_id, "127.0.0.1", req.port, 0, 0, 0⟩
    ∧ mkPeer req ∈
        (((handle_announce_request req st).1 req.info_hash).filter (fun p => p.left = 0))
    ∧ (handle_announce_request req st).2.complete
        = (((handle_announce_request req st).1 req.info_hash).filter
            (fun p => p.left = 0)).length
    ∧ (handle_announce_request req st).2.incomplete
        = (((handle_announce_request req st).1 req.info_hash).filter
            (fun p => 0 < p.left)).length
    ∧ mkPeer req ∉
        (((handle_announce_request req st).1 req.info_hash).filter (fun p => 0 < p.left)) := by
  have hpeer : mkPeer req = ⟨req.peer_id, "127.0.0.1", req.port, 0, 0, 0⟩ := by
    rw [mkPeer, hu, hd, hl, hip]
    rfl
  refine ⟨hpeer, ?_, ?_, ?_, ?_⟩
  · simp only [handle_announce_request]
    rw [if_pos trivial]
    rw [if_pos (by rw [hev]; simp)]
    rw [List.filter_append]
    rw [List.mem_append]
    right
    rw [hpeer]
    simp
  · simp only [handle_announce_request]
  · simp only [handle_announce_request]
  · simp only [handle_announce_request]
    rw [if_pos trivial]
    rw [if_pos (by rw [hev]; simp)]
    rw [List.filter_append, List.mem_append]
    intro hcontra
    rcases hcontra with hretained | hsingle
    · rw [List.mem_filter] at hretained
      have hpid := hretained.1
      rw [List.mem_filter] at hpid
      have := hpid.2
      rw [hpeer] at this
      simp at this
    · rw [hpeer] at hsingle
      simp at hsingle

/-- Witness for C10 at a concrete request with all optional fields
absent, against the empty tracker state. -/
theorem announce_defaults_c10_witness :
    mkPeer ⟨"H", "P", 1, none, none, none, none, none⟩
      = ⟨"P", "127.0.0.1", 1, 0, 0, 0⟩
    ∧ mkPeer ⟨"H", "P", 1, none, none, none, none, none⟩ ∈
        (((handle_announce_request ⟨"H", "P", 1, none, none, none, none, none⟩
          (fun _ => [])).1 "H").filter (fun p => p.left = 0))
    ∧ (handle_announce_request ⟨"H", "P", 1, none, none, none, none, none⟩
          (fun _ => [])).2.complete
        = (((handle_announce_request ⟨"H", "P", 1, none, none, none, none, none⟩
          (fun _ => [])).1 "H").filter (fun p => p.left = 0)).length
    ∧ (handle_announce_request ⟨"H", "P", 1, none, none, none, none, none⟩
          (fun _ => [])).2.incomplete
        = (((handle_announce_request ⟨"H", "P", 1, none, none, none, none, none⟩
          (fun _ => [])).1 "H").filter (fun p => 0 < p.left)).length
    ∧ mkPeer ⟨"H", "P", 1, none, none, none, none, none⟩ ∉
        (((handle_announce_request ⟨"H", "P", 1, none, none, none, none, none⟩
          (fun _ => [])).1 "H").filter (fun p => 0 < p.left)) :=
  announce_defaults_c10 (fun _ => []) ⟨"H", "P", 1, none, none, none, none, none⟩
    rfl rfl rfl rfl rfl

/-- C3: whatever the outcome of a delegation call — node-selection
failure, client-creation failure, transport failure or success — every
node's `active_requests` after `delegate_ai_work` returns equals its
value before the call: the increment on the selected node never
survives the call. -/
theorem delegate_preserves_active_c3 (w : WorkDist) (c : NodeCapability) (r : Rat)
    (clientOk : Bool) (transport : Except String AiResponse) (now : Nat) (id : String) :
    (((delegate_ai_work w c r clientOk transport now).1.nodes id).map
        (fun n => n.active_requests))
      = (w.nodes id).map (fun n => n.active_requests) := by
  cases hsel : select_node w c r with
  | none => simp [delegate_ai_work, hsel]
  | some p =>
    obtain ⟨nid, info⟩ := p
    by_cases hid : id = nid
    · subst hid
      cases hn : w.nodes id <;>
        cases clientOk <;>
          simp [delegate_ai_work, hsel, updNode, hn]
    · cases clientOk <;> simp [delegate_ai_work, hsel, updNode, hid]

/-- C2 counterexample: with exactly one eligible candidate (node A is
indexed for the capability, lists it, and is far below its concurrency
cap) whose declared weight is 0, the candidate set is non-empty, yet
`select_node` returns `None`: the total effective weight is 0 and the
`total_weight <= 0.0` guard fires before any draw or fallback. -/
theorem select_node_c2_counterexample :
    candidatesOf zeroWeightWD NodeCapability.aiProcessing ["A"] = [("A", 0)]
    ∧ zeroWeightWD.capability_tables NodeCapability.aiProcessing = some ["A"]
    ∧ select_node zeroWeightWD NodeCapability.aiProcessing 0 = none := by
  refine ⟨?_, rfl, ?_⟩
  · simp [candidatesOf, zeroWeightWD, can_handle, effective_weight]
  · simp [select_node, candidatesOf, zeroWeightWD, can_handle, effective_weight]

theorem candidatesOf_mem (w : WorkDist) (c : NodeCapability) (ids : List String)
    (id : String) (wt : Rat) (h : (id, wt) ∈ candidatesOf w c ids) :
    ∃ n, w.nodes id = some n ∧ can_handle n c = true ∧ wt = effective_weight n := by
  rw [candidatesOf, List.mem_filterMap] at h
  obtain ⟨id0, _, hsome⟩ := h
  cases hn : w.nodes id0 with
  | none => rw [hn] at hsome; cases hsome
  | some n =>
    rw [hn] at hsome
    simp only at hsome
    split_ifs at hsome with hch
    simp only [Option.some.injEq, Prod.mk.injEq] at hsome
    obtain ⟨h1, h2⟩ := hsome
    subst h1
    exact ⟨n, hn, hch, h2.symm⟩

theorem selLoop_isSome (nodes : String → Option NodeInfo) :
    ∀ (cands : List (String × Rat)) (r : Rat),
      0 ≤ r → r < (cands.map (fun p => p.2)).sum →
      (∀ p ∈ cands, (nodes p.1).isSome = true) →
      ∃ id n, selLoop nodes cands r = some (id, n) ∧ nodes id = some n
        ∧ ∃ wt, (id, wt) ∈ cands := by
  intro cands
  induction cands with
  | nil =>
    intro r h0 hlt _
    simp at hlt
    exact absurd h0 (not_le.mpr hlt)
  | cons p rest ih =>
    intro r h0 hlt hsome
    obtain ⟨id, wt⟩ := p
    rw [selLoop]
    by_cases hle : r - wt ≤ 0
    · rw [if_pos hle]
      have hs := hsome (id, wt) (by simp)
      obtain ⟨n, hn⟩ := Option.isSome_iff_exists.mp hs
      rw [hn]
      exact ⟨id, n, rfl, hn, wt, by simp⟩
    · rw [if_neg hle]
      have h0' : 0 ≤ r - wt := by
        push_neg at hle
        exact le_of_lt hle
      have hlt' : r - wt < (rest.map (fun p => p.2)).sum := by
        rw [List.map_cons, List.sum_cons] at hlt
        linarith
      obtain ⟨id', n', hsel, hn', wt', hmem⟩ :=
        ih (r - wt) h0' hlt' (fun q hq => hsome q (List.mem_cons_of_mem _ hq))
      exact ⟨id', n', hsel, hn', wt', List.mem_cons_of_mem _ hmem⟩

/-- C2 amended: whenever the candidate set of `select_node` is non-empty
AND the total effective weight is positive, `select_node` (for every
draw `r` in `[0, total)`) returns some candidate, whose record still
satisfies `can_handle`; with exactly one eligible candidate it returns
that candidate.  The claim as stated fails when the total effective
weight is not positive (counterexample above): `select_node` then
returns `None` even on a non-empty candidate set. -/
theorem select_node_c2_amended (w : WorkDist) (c : NodeCapability) (r : Rat)
    (ids : List String)
    (htab : w.capability_tables c = some ids)
    (hne : candidatesOf w c ids ≠ [])
    (htot : 0 < ((candidatesOf w c ids).map (fun p => p.2)).sum)
    (hr0 : 0 ≤ r)
    (hrlt : r < ((candidatesOf w c ids).map (fun p => p.2)).sum) :
    (∃ id n, select_node w c r = some (id, n) ∧ w.nodes id = some n
      ∧ can_handle n c = true)
    ∧ (∀ id wt, candidatesOf w c ids = [(id, wt)] →
        ∃ n, w.nodes id = some n ∧ select_node w c r = some (id, n)) := by
  have hsome : ∀ p ∈ candidatesOf w c ids, (w.nodes p.1).isSome = true := by
    intro p hp
    obtain ⟨pid, pwt⟩ := p
    obtain ⟨n, hn, _, _⟩ := candidatesOf_mem w c ids pid pwt hp
    rw [hn]
    rfl
  obtain ⟨sid, sn, hsel, hsn, swt, hsmem⟩ :=
    selLoop_isSome w.nodes (candidatesOf w c ids) r hr0 hrlt hsome
  have hnotempty : ¬((candidatesOf w c ids).isEmpty = true) := by
    simpa [List.isEmpty_iff] using hne
  constructor
  · refine ⟨sid, sn, ?_, hsn, ?_⟩
    · rw [select_node, htab]
      simp only
      rw [if_neg hnotempty, if_neg (not_le.mpr htot), hsel]
    · obtain ⟨n', hn', hch', _⟩ := candidatesOf_mem w c ids sid swt hsmem
      rw [hsn] at hn'
      injection hn' with heq
      rw [heq]
      exact hch'
  · intro id wt hsingle
    obtain ⟨n, hn, hch, hwt⟩ := candidatesOf_mem w c ids id wt (by rw [hsingle]; simp)
    refine ⟨n, hn, ?_⟩
    rw [select_node, htab]
    simp only
    rw [if_neg hnotempty, if_neg (not_le.mpr htot)]
    have hrwt : r - wt ≤ 0 := by
      rw [hsingle] at hrlt
      simp at hrlt
      linarith
    rw [hsingle, selLoop, if_pos hrwt, hn]

/-- Witness for the amended C2 at a concrete single-candidate state and
the draw 1/2. -/
theorem select_node_c2_amended_witness :
    (∃ id n, select_node unitWeightWD NodeCapability.aiProcessing (1 / 2) = some (id, n)
      ∧ unitWeightWD.nodes id = some n ∧ can_handle n NodeCapability.aiProcessing = true)
    ∧ (∀ id wt,
        candidatesOf unitWeightWD NodeCapability.aiProcessing ["A"] = [(id, wt)] →
        ∃ n, unitWeightWD.nodes id = some n
          ∧ select_node unitWeightWD NodeCapability.aiProcessing (1 / 2) = some (id, n)) :=
  select_node_c2_amended unitWeightWD NodeCapability.aiProcessing (1 / 2) ["A"]
    rfl
    (by simp [candidatesOf, unitWeightWD, can_handle, effective_weight])
    (by simp [candidatesOf, unitWeightWD, can_handle, effective_weight])
    (by norm_num)
    (by simp [candidatesOf, unitWeightWD, can_handle, effective_weight]; norm_num)

/-- C4 counterexample: when the first two attempts time out,
`send_message` has already failed after 2 attempts, while the claimed
policy of two additional retries would connect on its third attempt. -/
theorem send_message_c4_counterexample :
    connectWithRetry .timeout .timeout = .failed 2
    ∧ specConnectRetry .timeout .timeout .success = .connected 3 :=
  ⟨rfl, rfl⟩

/-- C4 amended: connection establishment is retried at most ONE
additional time after the first attempt fails with a timeout or an
in-timeout error, each attempt fresh; a failure of the synchronous
connect call aborts with no retry; at most two connection attempts ever
run; the stream phase runs at most once, and a mid-stream failure is
propagated unchanged with exactly one stream attempt (never retried). -/
theorem send_message_c4_amended (a1 a2 : ConnAttempt)
    (stream : Except String AiResponse) :
    (a1 = .success → connectWithRetry a1 a2 = .connected 1)
    ∧ ((a1 = .asyncFail ∨ a1 = .timeout) → a2 = .success →
        connectWithRetry a1 a2 = .connected 2)
    ∧ ((a1 = .asyncFail ∨ a1 = .timeout) → a2 ≠ .success →
        connectWithRetry a1 a2 = .failed 2)
    ∧ (a1 = .syncFail → connectWithRetry a1 a2 = .failed 1)
    ∧ (send_message a1 a2 stream).2.1 ≤ 2
    ∧ (send_message a1 a2 stream).2.2 ≤ 1
    ∧ (∀ e : String, stream = .error e → ∀ n : Nat,
        connectWithRetry a1 a2 = .connected n →
        send_message a1 a2 stream = (.error e, n, 1)) := by
  cases a1 <;> cases a2 <;> cases stream <;>
    simp [send_message, connectWithRetry]

/-- Witness for the amended C4 at a concrete instance: first attempt
times out, the retry succeeds, the stream fails mid-way. -/
theorem send_message_c4_amended_witness :
    (ConnAttempt.timeout = .success →
        connectWithRetry .timeout .success = .connected 1)
    ∧ ((ConnAttempt.timeout = .asyncFail ∨ ConnAttempt.timeout = .timeout) →
        ConnAttempt.success = .success →
        connectWithRetry .timeout .success = .connected 2)
    ∧ ((ConnAttempt.timeout = .asyncFail ∨ ConnAttempt.timeout = .timeout) →
        ConnAttempt.success ≠ .success →
        connectWithRetry .timeout .success = .failed 2)
    ∧ (ConnAttempt.timeout = .syncFail →
        connectWithRetry .timeout .success = .failed 1)
    ∧ (send_message .timeout .success (.error "stream reset")).2.1 ≤ 2
    ∧ (send_message .timeout .success (.error "stream reset")).2.2 ≤ 1
    ∧ (∀ e : String, (Except.error "stream reset" : Except String AiResponse) = .error e →
        ∀ n : Nat, connectWithRetry .timeout .success = .connected n →
        send_message .timeout .success (.error "stream reset") = (.error e, n, 1)) :=
  send_message_c4_amended .timeout .success (.error "stream reset")

/-- C5 counterexample: the payload `{"info_hash": "H", "peer_id": "P"}`
has both `info_hash` and `peer_id`, yet it is NOT dispatched as an
announce request: the typed parse also requires `port`, so the payload
falls through every parser and is dispatched as Unknown. -/
theorem dispatch_c5_counterexample :
    hasField (Json.obj [("info_hash", Json.str "H"), ("peer_id", Json.str "P")])
      "info_hash" = true
    ∧ hasField (Json.obj [("info_hash", Json.str "H"), ("peer_id", Json.str "P")])
      "peer_id" = true
    ∧ dispatch_request (some (Json.obj
        [("info_hash", Json.str "H"), ("peer_id", Json.str "P")])) = .unknown :=
  ⟨rfl, rfl, rfl⟩

/-- C5 amended: server-side dispatch follows the fixed priority of
SUCCESSFUL typed parses, first match wins: a payload that parses as a
complete announce request (`info_hash`, `peer_id` AND `port`, each
well-typed) is dispatched as Announce; otherwise one that parses as a
file request (a `file` string) as File; otherwise one that parses as an
AI request (a `query` string, optional fields well-typed) as AiRequest;
otherwise — non-JSON input included — it is Unknown.  Mere presence of
the distinguishing fields is not enough when a required field is missing
or ill-typed. -/
theorem dispatch_priority_c5_amended (j : Json) :
    (∀ r, dispatch_request (some j) = .announce r
      ↔ parseTrackerAnnounceRequest j = some r)
    ∧ (∀ r, dispatch_request (some j) = .file r
      ↔ (parseTrackerAnnounceRequest j = none ∧ parseFileRequest j = some r))
    ∧ (∀ r, dispatch_request (some j) = .ai r
      ↔ (parseTrackerAnnounceRequest j = none ∧ parseFileRequest j = none
          ∧ parseAiRequest j = some r))
    ∧ (dispatch_request (some j) = .unknown
      ↔ (parseTrackerAnnounceRequest j = none ∧ parseFileRequest j = none
          ∧ parseAiRequest j = none))
    ∧ dispatch_request none = .unknown := by
  cases ha : parseTrackerAnnounceRequest j <;>
    cases hf : parseFileRequest j <;>
      cases hq : parseAiRequest j <;>
        simp [dispatch_request, ha, hf, hq]

/-- C9 counterexample: on an empty stream the server returns without
writing anything — no ErrorResponse — silently dropping the stream,
though the claim includes empty input among those answered. -/
theorem stream_empty_c9_counterexample :
    stream_action (fun _ => none) [] = .dropStream
    ∧ stream_action (fun _ => none) [] ≠ .respondError "UNKNOWN_REQUEST"
    ∧ stream_action (fun _ => none) [] ≠ .respondError "INVALID_ENCODING" := by
  refine ⟨rfl, ?_, ?_⟩ <;> decide

/-- C9 amended: for every stream whose accumulated input is NONEMPTY
and does not parse as any known request, the server writes an
ErrorResponse back — INVALID_ENCODING for invalid UTF-8,
UNKNOWN_REQUEST for an unrecognized payload — and never silently drops
the stream; an EMPTY input, however, is silently ignored with no
response written. -/
theorem stream_action_c9_amended (parseJson : List Nat → Option Json)
    (input : List Nat) (hne : input ≠ []) :
    (utf8Decode input = none →
      stream_action parseJson input = .respondError "INVALID_ENCODING")
    ∧ (∀ cs, utf8Decode input = some cs →
        dispatch_request (parseJson cs) = .unknown →
        stream_action parseJson input = .respondError "UNKNOWN_REQUEST")
    ∧ stream_action parseJson input ≠ .dropStream := by
  have hie : ¬(input.isEmpty = true) := by
    simpa [List.isEmpty_iff] using hne
  refine ⟨?_, ?_, ?_⟩
  · intro hu
    rw [stream_action, if_neg hie, hu]
  · intro cs hu hd
    rw [stream_action, if_neg hie, hu]
    simp only
    rw [hd]
  · cases hu : utf8Decode input with
    | none => simp [stream_action, hne, hu]
    | some cs =>
      cases hd : dispatch_request (parseJson cs) <;>
        simp [stream_action, hne, hu, hd]

/-- Witness for the amended C9: the single byte 0xFF is nonempty and
not valid UTF-8, so the INVALID_ENCODING error is written. -/
theorem stream_action_c9_amended_witness :
    (utf8Decode [255] = none →
      stream_action (fun _ => none) [255] = .respondError "INVALID_ENCODING")
    ∧ (∀ cs, utf8Decode [255] = some cs →
        dispatch_request ((fun _ => (none : Option Json)) cs) = .unknown →
        stream_action (fun _ => none) [255] = .respondError "UNKNOWN_REQUEST")
    ∧ stream_action (fun _ => none) [255] ≠ .dropStream :=
  stream_action_c9_amended (fun _ => none) [255] (by simp)

/-- C6: the server answers an AiRequest with an AiResponse whenever
local handling succeeds (a processor is present — it then always
produces an answer) or delegation succeeds; it answers
ErrorResponse{code=AI_UNAVAILABLE} exactly when neither does; and
AI_UNAVAILABLE is the only error it ever answers with. -/
theorem handle_ai_request_c6
    (proc : Option (Except String (String × ResponseMetadata)))
    (work_dist : Option (Except String AiResponse)) :
    (handle_ai_request proc work_dist = .err "AI_UNAVAILABLE"
      ↔ (proc = none ∧ ∀ r, work_dist ≠ some (.ok r)))
    ∧ ((∃ r, handle_ai_request proc work_dist = .ai r)
      ↔ (proc.isSome = true ∨ ∃ r, work_dist = some (.ok r)))
    ∧ (∀ c, handle_ai_request proc work_dist = .err c → c = "AI_UNAVAILABLE") := by
  cases proc with
  | some p =>
    cases p <;> simp [handle_ai_request, localAiResponse]
  | none =>
    cases work_dist with
    | none => simp [handle_ai_request, localAiResponse]
    | some x =>
      cases x <;> simp [handle_ai_request, localAiResponse]

/-- C8: the sanitizer is meant to prevent directory traversal (the
code's own comment), and it does strip `"../../etc/passwd"` down to the
harmless `"etcpasswd"` inside the base directory — but the input
`"./."` sanitizes to `".."` (removing the `/` merges the surviving dots)
and the resolved path `seed/..` is the PARENT of the base directory,
outside it. -/
theorem file_sanitize_c8_bug :
    sanitize_file "./.".toList = "..".toList
    ∧ insideSeed (resolved_file_components "./.".toList) = false
    ∧ sanitize_file "../../etc/passwd".toList = "etcpasswd".toList
    ∧ insideSeed (resolved_file_components "../../etc/passwd".toList) = true := by
  refine ⟨?_, ?_, ?_, ?_⟩ <;> decide
